import Mathlib

/-!
Shallow embedding of the anomaly-detection core of the perf-logger SDK
(ring buffer, baseline manager with Welford statistics, z-score and EMA
detection strategies, event bus), together with proofs of the behavioural
properties stated in the specification.

Numbers are modelled as rationals: every arithmetic step the claims
exercise (Welford updates on small integers, threshold comparisons,
percentile index computation for windows of at most 500 samples) is exact
in IEEE-754 doubles as well, so the rational model agrees with the
JavaScript semantics on the examined behaviours.  Ambient-environment
reads (clocks, session id, page URL) are passed in as parameters; string
formatting of diagnostic messages is not modelled.
-/

namespace PerfSDK

/-! ### Ring buffer (src/utils/RingBuffer.js)

A JS array of fixed capacity is modelled as a total function from indices;
slots never written hold the default element (JS `undefined` holes are
never observable through `toArray`, which reads only the first `count`
logical slots). -/

structure RingBuffer (α : Type) where
  capacity : ℕ
  buffer : ℕ → α
  head : ℕ
  count : ℕ

namespace RingBuffer

variable {α : Type} [Inhabited α]

/-- Constructor `new RingBuffer(capacity)`. -/
def empty (capacity : ℕ) : RingBuffer α :=
  { capacity := capacity, buffer := fun _ => default, head := 0, count := 0 }

/-- Method `push(item)`: write at `head`, advance `head` cyclically, and
grow `count` until the buffer is full. -/
def push (b : RingBuffer α) (item : α) : RingBuffer α :=
  { b with
    buffer := Function.update b.buffer b.head item
    head := (b.head + 1) % b.capacity
    count := if b.count < b.capacity then b.count + 1 else b.count }

/-- Method `toArray()`: contents oldest to newest. -/
def toArray (b : RingBuffer α) : List α :=
  if b.count = 0 then []
  else
    let start := if b.count < b.capacity then 0 else b.head
    (List.range b.count).map fun i => b.buffer ((start + i) % b.capacity)

/-- Getter `length`. -/
def length (b : RingBuffer α) : ℕ := b.count

/-- Getter `latest`: most recently pushed item, `none` when empty. -/
def latest (b : RingBuffer α) : Option α :=
  if b.count = 0 then none
  else some (b.buffer ((b.head - 1 + b.capacity) % b.capacity))

/-- Pushing a whole list in order. -/
def pushList (b : RingBuffer α) (xs : List α) : RingBuffer α :=
  xs.foldl push b

end RingBuffer

/-! ### Ascending sort used for percentiles

`values.toArray().sort((a, b) => a - b)` sorts numerically ascending. -/

def insertAsc (x : ℚ) : List ℚ → List ℚ
  | [] => [x]
  | y :: ys => if x ≤ y then x :: y :: ys else y :: insertAsc x ys

def sortAsc : List ℚ → List ℚ
  | [] => []
  | x :: xs => insertAsc x (sortAsc xs)

/-! ### Association lists standing for JS `Map`

Insertion order is preserved; `set` on an existing key replaces the value
in place, matching `Map.prototype.set`. -/

def alookup {β : Type} : List (String × β) → String → Option β
  | [], _ => none
  | (k, v) :: rest, name => if k = name then some v else alookup rest name

def aset {β : Type} : List (String × β) → String → β → List (String × β)
  | [], name, v => [(name, v)]
  | (k, w) :: rest, name, v =>
    if k = name then (name, v) :: rest else (k, w) :: aset rest name v

def akeys {β : Type} (l : List (String × β)) : List String := l.map Prod.fst

/-! ### Baseline manager (BaselineManager.js) -/

/-- Per-metric baseline data.  `min`/`max` start at `Infinity`/`-Infinity`
in JS; the sentinel is modelled as `none`, and both fields become `some`
on the first recorded value (a record is created and updated within the
same `record` call, so the sentinel is never observable in a snapshot). -/
structure BaselineData where
  values : RingBuffer ℚ
  count : ℕ
  mean : ℚ
  m2 : ℚ
  min : Option ℚ
  max : Option ℚ

/-- Fresh per-metric record created lazily by `record`. -/
def freshData : BaselineData :=
  { values := RingBuffer.empty 500, count := 0, mean := 0, m2 := 0
    min := none, max := none }

/-- Welford update plus window push and min/max tracking: the body of
`record` once the per-metric record exists. -/
def updateData (d : BaselineData) (value : ℚ) : BaselineData :=
  let values := d.values.push value
  let count := d.count + 1
  let delta := value - d.mean
  let mean := d.mean + delta / (count : ℚ)
  let delta2 := value - mean
  let m2 := d.m2 + delta * delta2
  { values := values, count := count, mean := mean, m2 := m2
    min := some (d.min.elim value (fun m => Min.min m value))
    max := some (d.max.elim value (fun m => Max.max m value)) }

/-- Manager state: `_minSamples = learningPeriodSeconds * sampleRateHz`
and the per-metric map. -/
structure BaselineManager where
  minSamples : ℚ
  baselines : List (String × BaselineData)

/-- Constructor `new BaselineManager(learningPeriodSeconds, sampleRateHz)`. -/
def mkBaselineManager (learningPeriodSeconds : ℚ) (sampleRateHz : ℚ := 1) :
    BaselineManager :=
  { minSamples := learningPeriodSeconds * sampleRateHz, baselines := [] }

namespace BaselineManager

/-- Method `record(metricName, value)`. -/
def record (m : BaselineManager) (metricName : String) (value : ℚ) :
    BaselineManager :=
  let d := (alookup m.baselines metricName).getD freshData
  { m with baselines := aset m.baselines metricName (updateData d value) }

/-- Recording a list of `(name, value)` pairs in order. -/
def recordSeq (m : BaselineManager) (ops : List (String × ℚ)) :
    BaselineManager :=
  ops.foldl (fun acc op => acc.record op.1 op.2) m

/-- Method `isReady(metricName)`: `(data?.count ?? 0) >= minSamples`. -/
def isReady (m : BaselineManager) (metricName : String) : Bool :=
  (((alookup m.baselines metricName).elim 0 (·.count) : ℕ) : ℚ) ≥ m.minSamples

end BaselineManager

/-- Derived statistics snapshot returned by `getBaseline`.  The source
also carries `stdDev = Math.sqrt(variance)`; the square root is kept out
of the executable data and recovered as `Real.sqrt variance` in the
statements that need it. -/
structure BaselineSnapshot where
  mean : ℚ
  variance : ℚ
  min : Option ℚ
  max : Option ℚ
  p50 : ℚ
  p90 : ℚ
  p95 : ℚ
  p99 : ℚ
  sampleCount : ℕ
  deriving DecidableEq

/-- The `stdDev` field of the source snapshot. -/
noncomputable def BaselineSnapshot.stdDev (s : BaselineSnapshot) : ℝ :=
  Real.sqrt (s.variance : ℝ)

namespace BaselineManager

/-- Method `getBaseline(metricName)`: `null` unless the record exists and
is ready; `variance = m2 / (count - 1)` for `count > 1` else `0`;
percentile `p_k` is `sorted[Math.floor(n * k)] ?? 0` over the retained
window (for windows of at most 500 values `Math.floor(n * k)` in doubles
equals the exact rational floor used here). -/
def getBaseline (m : BaselineManager) (metricName : String) :
    Option BaselineSnapshot :=
  match alookup m.baselines metricName with
  | none => none
  | some d =>
    if ((d.count : ℚ) ≥ m.minSamples) then
      let sorted := sortAsc d.values.toArray
      let n := sorted.length
      some
        { mean := d.mean
          variance := if 1 < d.count then d.m2 / ((d.count : ℚ) - 1) else 0
          min := d.min
          max := d.max
          p50 := (sorted.get? (n / 2)).getD 0
          p90 := (sorted.get? (9 * n / 10)).getD 0
          p95 := (sorted.get? (19 * n / 20)).getD 0
          p99 := (sorted.get? (99 * n / 100)).getD 0
          sampleCount := d.count }
    else none

/-- Method `getValues(metricName)`. -/
def getValues (m : BaselineManager) (metricName : String) : List ℚ :=
  (alookup m.baselines metricName).elim [] (·.values.toArray)

end BaselineManager

/-! ### Serialization and restore (BaselineManager.serialize / restore)

`serialize()` JSON-encodes `{count, mean, m2, min, max}` per metric; the
window is deliberately dropped.  The JSON text itself is external; the
payload is modelled structurally as the list of encoded entries. -/

/-- Aggregates written by `serialize` for one metric. -/
structure SavedBaseline where
  count : ℕ
  mean : ℚ
  m2 : ℚ
  min : Option ℚ
  max : Option ℚ

/-- The aggregate object `serialize` writes for one metric record. -/
def savedOf (d : BaselineData) : SavedBaseline :=
  { count := d.count, mean := d.mean, m2 := d.m2, min := d.min, max := d.max }

/-- Method `serialize()`: the per-metric aggregates in map insertion
order. -/
def BaselineManager.serialize (m : BaselineManager) :
    List (String × SavedBaseline) :=
  m.baselines.map fun p => (p.1, savedOf p.2)

/-- One entry value of a parsed restore payload.  `JSON.parse` can only
produce `null` or a non-null value at each entry; reading `.count` (and
the other fields) off a `null` entry throws a `TypeError`, while any
non-null value yields the record the loop stores for it (absent fields
are abstracted into the stored aggregates, since they cause no failure). -/
inductive RestoreEntry where
  | nullEntry : RestoreEntry
  | savedEntry : SavedBaseline → RestoreEntry

/-- Outcome of `JSON.parse` on the restore input, as `restore` consumes
it: the parse may throw; the parsed root may be `null` (then
`Object.entries` throws); otherwise `Object.entries` yields a list of
entries (empty for numbers and booleans). -/
inductive RestorePayload where
  | parseError : RestorePayload
  | nullRoot : RestorePayload
  | entriesRoot : List (String × RestoreEntry) → RestorePayload

/-- The fresh record `restore` builds for one saved entry: saved
aggregates plus an empty capacity-500 ring buffer. -/
def restoredData (s : SavedBaseline) : BaselineData :=
  { values := RingBuffer.empty 500, count := s.count, mean := s.mean
    m2 := s.m2, min := s.min, max := s.max }

/-- The `for (const [name, saved] of Object.entries(parsed))` loop:
each saved entry replaces the record under its key; a `null` entry throws
at `saved.count`, the surrounding `catch` swallows the error, and the
remaining entries are never processed. -/
def applyRestoreEntries (m : BaselineManager) :
    List (String × RestoreEntry) → BaselineManager
  | [] => m
  | (name, RestoreEntry.savedEntry s) :: rest =>
    applyRestoreEntries
      { m with baselines := aset m.baselines name (restoredData s) } rest
  | (_, RestoreEntry.nullEntry) :: _ => m

/-- Method `restore(json)`, as a function of the parse outcome of the
input string. -/
def BaselineManager.restore (m : BaselineManager) (p : RestorePayload) :
    BaselineManager :=
  match p with
  | RestorePayload.parseError => m
  | RestorePayload.nullRoot => m
  | RestorePayload.entriesRoot es => applyRestoreEntries m es

/-- Whether the `try` block of `restore` throws internally on this
payload (the error is always caught, so the caller never observes it). -/
def restoreFails : RestorePayload → Bool
  | RestorePayload.parseError => true
  | RestorePayload.nullRoot => true
  | RestorePayload.entriesRoot es =>
    es.any fun e =>
      match e.2 with
      | RestoreEntry.nullEntry => true
      | RestoreEntry.savedEntry _ => false

/-- Serialize-then-restore into a fresh manager built with the same
constructor arguments (the round trip of the persistence contract). -/
def roundTrip (m : BaselineManager) : BaselineManager :=
  BaselineManager.restore
    { minSamples := m.minSamples, baselines := [] }
    (RestorePayload.entriesRoot
      ((m.serialize).map fun p => (p.1, RestoreEntry.savedEntry p.2)))

/-! ### Detection strategies

A strategy receives the metric sample and the baseline manager, and reads
only `getBaseline(metric.name)`; the manager argument is embedded as that
lookup function.  The snapshot interface consumed by the strategies
carries the `mean` and `stdDev` fields they read (rational, which is
exact for every scenario the claims exercise).  Verdict `message`,
`timestamp` and `context` (string formatting and ambient clock) are not
modelled. -/

/-- The part of a metric sample the strategies read. -/
structure MetricSample where
  name : String
  value : ℚ

/-- The part of a baseline snapshot the strategies read. -/
structure StratBaseline where
  mean : ℚ
  stdDev : ℚ

/-- Anomaly verdict fields the claims constrain. -/
structure Verdict where
  vtype : String
  severity : String
  score : ℚ
  deriving DecidableEq

/-- `ZScoreStrategy.detect(metric, baseline)` with parameter
`threshold`. -/
def ZScoreStrategy.detect (threshold : ℚ) (metric : MetricSample)
    (getBaseline : String → Option StratBaseline) : Option Verdict :=
  match getBaseline metric.name with
  | none => none
  | some base =>
    if base.stdDev = 0 then none
    else
      let zScore := (metric.value - base.mean) / base.stdDev
      if |zScore| ≤ threshold then none
      else
        let isCritical := |zScore| > threshold * 2
        some
          { vtype := "spike"
            severity := if isCritical then "critical" else "warning"
            score := Min.min 1 (|zScore| / (threshold * 2)) }

/-- Per-metric EMA state of `EMAStrategy` (`this._emaValues`). -/
def EmaState : Type := List (String × ℚ)

/-- `EMAStrategy.detect(metric, baseline)` with parameters `alpha` and
`deviationThreshold`; returns the optional verdict together with the
updated `_emaValues` map. -/
def EMAStrategy.detect (alpha deviationThreshold : ℚ) (st : EmaState)
    (metric : MetricSample)
    (getBaseline : String → Option StratBaseline) :
    Option Verdict × EmaState :=
  match getBaseline metric.name with
  | none => (none, st)
  | some base =>
    if base.stdDev = 0 then (none, st)
    else
      let prevEma := (alookup st metric.name).getD base.mean
      let newEma := alpha * metric.value + (1 - alpha) * prevEma
      let st' := aset st metric.name newEma
      let deviation := |metric.value - newEma|
      let normalizedDeviation := deviation / base.stdDev
      if normalizedDeviation ≤ deviationThreshold then (none, st')
      else
        let isCritical := normalizedDeviation > deviationThreshold * 2
        (some
          { vtype := "drift"
            severity := if isCritical then "critical" else "warning"
            score := Min.min 1 (normalizedDeviation / (deviationThreshold * 2)) },
         st')

/-! ### Event bus (EventBus.js)

Listeners are stored per type in a JS `Set`, whose iteration order is
insertion order; a listener is identified by a numeric id resolved
through an environment (closure conversion of JS function identity).
Each listener maps the envelope and a world to a new world plus a flag
recording whether it threw; `emit` wraps every call in `try/catch`, so
the flag is discarded (logged) and dispatch continues.  Clock reads and
page context are passed in as arguments. -/

/-- The BusEnvelope built by `emit`. -/
structure BusEnvelope (P : Type) where
  etype : String
  timestamp : ℚ
  wallTime : ℚ
  source : String
  payload : P

/-- A listener observed through its effect on an abstract world `W`; the
Bool records whether the listener body threw. -/
def Listener (P W : Type) : Type := BusEnvelope P → W → W × Bool

/-- Event bus state: per-type listener ids (insertion-ordered, Set
semantics) and the bounded history log. -/
structure EventBus (P : Type) where
  listeners : List (String × List ℕ)
  history : List (BusEnvelope P)
  maxHistory : ℕ

/-- Constructor `new EventBus()`. -/
def EventBus.init (P : Type) : EventBus P :=
  { listeners := [], history := [], maxHistory := 1000 }

/-- Method `on(type, listener)`: `Set.add`, idempotent per identity,
appending at the end when absent. -/
def EventBus.on {P : Type} (bus : EventBus P) (etype : String) (id : ℕ) :
    EventBus P :=
  let l := (alookup bus.listeners etype).getD []
  { bus with
    listeners := aset bus.listeners etype (if id ∈ l then l else l ++ [id]) }

/-- Method `emit(type, source, payload)`: build the envelope, append it
to the history (evicting the oldest entry past `maxHistory`), then invoke
every listener registered for `type` in subscription order, catching
per-listener errors. -/
def EventBus.emit {P W : Type} (bus : EventBus P) (etype source : String)
    (timestamp wallTime : ℚ) (payload : P) (env : ℕ → Listener P W)
    (w : W) : EventBus P × W :=
  let e : BusEnvelope P :=
    { etype := etype, timestamp := timestamp, wallTime := wallTime
      source := source, payload := payload }
  let pushed := bus.history ++ [e]
  let hist := if bus.maxHistory < pushed.length then pushed.drop 1 else pushed
  let ls := (alookup bus.listeners etype).getD []
  let w' := ls.foldl (fun acc id => (env id e acc).1) w
  ({ bus with history := hist }, w')

/-- Instrumented listener environment: listener `id` appends
`(id, throws id)` to a trace world and throws exactly when `throws id`
is set. -/
def traceEnv (throws : ℕ → Bool) : ℕ → Listener ℕ (List (ℕ × Bool)) :=
  fun id _ w => (w ++ [(id, throws id)], throws id)

/-! ### Abstraction of the ring buffer as a sliding window -/

/-- Abstract effect of one `push` on the retained window: append, and
drop the oldest element once the capacity is reached. -/
def windowStep {α : Type} (C : ℕ) (w : List α) (x : α) : List α :=
  if w.length < C then w ++ [x] else w.drop 1 ++ [x]

/-- The retained window after pushing `xs` into a fresh buffer. -/
def windowsList {α : Type} (C : ℕ) (xs : List α) : List α :=
  xs.foldl (windowStep C) []

/-- Coupling invariant between a ring-buffer state and the list of
retained elements (oldest first). -/
structure RBInv {α : Type} [Inhabited α] (b : RingBuffer α) (w : List α) :
    Prop where
  hpos : 0 < b.capacity
  hcnt : b.count = w.length
  hlen : w.length ≤ b.capacity
  hhead : b.head < b.capacity
  hheadeq : w.length < b.capacity → b.head = w.length
  hbuf : ∀ i, i < w.length →
    w.get? i = some (b.buffer
      (((if w.length < b.capacity then 0 else b.head) + i) % b.capacity))

/-- The `m2` accumulator of a metric, `0` when the metric is unseen. -/
def m2Of (m : BaselineManager) (name : String) : ℚ :=
  ((alookup m.baselines name).map (·.m2)).getD 0

/-- The `data?.count ?? 0` read used by `isReady`. -/
def countOf (m : BaselineManager) (name : String) : ℕ :=
  (alookup m.baselines name).elim 0 (·.count)

/-- Baseline lookup with `mean = 100`, `stdDev = 10` for metric `lat`,
used by the concrete strategy scenarios of the specification. -/
def baseLat100 : String → Option StratBaseline :=
  fun n => if n = "lat" then some { mean := 100, stdDev := 10 } else none

/-- A manager holding one recorded sample for metric `a`. -/
def restoreCexManager : BaselineManager := (mkBaselineManager 30 1).record "a" 3

/-- A payload that parses (valid JSON text, e.g.
`{"a":{"count":7,"mean":5,"m2":2,"min":1,"max":9},"b":null}`) whose
second entry is `null`, so the restore loop throws at `saved.count` after
the first entry has already been applied. -/
def restoreCexPayload : RestorePayload :=
  RestorePayload.entriesRoot
    [("a", RestoreEntry.savedEntry
        { count := 7, mean := 5, m2 := 2, min := some 1, max := some 9 }),
     ("b", RestoreEntry.nullEntry)]

/-! ### Association-list lemmas -/

theorem alookup_aset_self {β : Type} (l : List (String × β)) (name : String)
    (v : β) : alookup (aset l name v) name = some v := by
  induction l with
  | nil => simp [aset, alookup]
  | cons hd tl ih =>
    by_cases h : hd.1 = name
    · simp [aset, h, alookup]
    · simp [aset, h, alookup, ih]

theorem alookup_aset_ne {β : Type} (l : List (String × β)) (name other : String)
    (v : β) (h : name ≠ other) :
    alookup (aset l name v) other = alookup l other := by
  induction l with
  | nil => simp [aset, alookup, h]
  | cons hd tl ih =>
    by_cases hk : hd.1 = name
    · simp [aset, hk, alookup, h]
    · by_cases ho : hd.1 = other
      · simp [aset, hk, alookup, ho, Ne.symm h]
      · simp [aset, hk, alookup, ho, ih]

theorem alookup_map {β γ : Type} (l : List (String × β)) (f : β → γ)
    (name : String) :
    alookup (l.map fun p => (p.1, f p.2)) name = (alookup l name).map f := by
  induction l with
  | nil => simp [alookup]
  | cons hd tl ih =>
    by_cases h : hd.1 = name
    · simp [alookup, h]
    · simp [alookup, h, ih]

theorem alookup_eq_none_of_not_mem_keys {β : Type} (l : List (String × β))
    (name : String) (h : name ∉ akeys l) : alookup l name = none := by
  induction l with
  | nil => simp [alookup]
  | cons hd tl ih =>
    rw [show akeys (hd :: tl) = hd.1 :: akeys tl from rfl, List.mem_cons] at h
    obtain ⟨h1, h2⟩ := not_or.mp h
    have h3 : ¬hd.1 = name := fun he => h1 he.symm
    simp [alookup, h3, ih h2]

/-! ### Baseline-manager helper lemmas -/

theorem alookup_record_self (m : BaselineManager) (name : String) (v : ℚ) :
    alookup (m.record name v).baselines name =
      some (updateData ((alookup m.baselines name).getD freshData) v) := by
  simp [BaselineManager.record, alookup_aset_self]

theorem alookup_record_ne (m : BaselineManager) (name other : String) (v : ℚ)
    (h : name ≠ other) :
    alookup (m.record name v).baselines other = alookup m.baselines other := by
  simp [BaselineManager.record, alookup_aset_ne _ _ _ _ h]

theorem minSamples_record (m : BaselineManager) (name : String) (v : ℚ) :
    (m.record name v).minSamples = m.minSamples := rfl

theorem minSamples_recordSeq (m : BaselineManager) (ops : List (String × ℚ)) :
    (m.recordSeq ops).minSamples = m.minSamples := by
  induction ops generalizing m with
  | nil => rfl
  | cons hd tl ih => simpa [BaselineManager.recordSeq] using ih (m.record hd.1 hd.2)

/-- The Welford increment to `m2` is `delta^2 * count / (count + 1) ≥ 0`. -/
theorem m2_updateData (d : BaselineData) (v : ℚ) :
    (updateData d v).m2 =
      d.m2 + (v - d.mean) ^ 2 * ((d.count : ℚ) / ((d.count : ℚ) + 1)) := by
  have hne : ((d.count : ℚ) + 1) ≠ 0 := by positivity
  simp only [updateData]
  push_cast
  field_simp
  ring

theorem m2_le_updateData (d : BaselineData) (v : ℚ) :
    d.m2 ≤ (updateData d v).m2 := by
  rw [m2_updateData]
  have : 0 ≤ (v - d.mean) ^ 2 * ((d.count : ℚ) / ((d.count : ℚ) + 1)) := by
    positivity
  linarith

/-! ### C1: Welford update and the [1,2,3,4,5] statistics -/

/-- C1: `BaselineManager.record` applies Welford's single-pass update to
every metric record (`delta = value - mean`; `mean += delta/count` with
the incremented count; `m2 += delta * (value - newMean)`), and recording
`[1,2,3,4,5]` for one metric yields a baseline snapshot with `mean = 3`
and sample variance (`n-1` denominator) `= 5/2`. -/
theorem welford_update_and_concrete_stats :
    (∀ (d : BaselineData) (v : ℚ),
        (updateData d v).count = d.count + 1 ∧
        (updateData d v).mean = d.mean + (v - d.mean) / ((d.count : ℚ) + 1) ∧
        (updateData d v).m2 = d.m2 + (v - d.mean) * (v - (updateData d v).mean))
    ∧ (((BaselineManager.recordSeq (mkBaselineManager 1 1)
          [("m", 1), ("m", 2), ("m", 3), ("m", 4), ("m", 5)]).getBaseline
            "m").map (·.mean) = some 3
       ∧ ((BaselineManager.recordSeq (mkBaselineManager 1 1)
            [("m", 1), ("m", 2), ("m", 3), ("m", 4), ("m", 5)]).getBaseline
              "m").map (·.variance) = some (5 / 2)) := by
  refine ⟨fun d v => ⟨rfl, by push_cast [updateData]; ring_nf, rfl⟩, ?_, ?_⟩ <;>
    norm_num [BaselineManager.recordSeq, BaselineManager.record,
      BaselineManager.getBaseline, updateData, freshData, alookup, aset,
      mkBaselineManager]

/-! ### C2: z-score strategy characterization and boundary values -/

/-- C2: `ZScoreStrategy.detect` returns `null` when the baseline is
missing (not ready) or `stdDev = 0`; with `z = (value - mean)/stdDev` it
returns `null` when `|z| ≤ threshold`, and otherwise a `spike` verdict
whose severity is `critical` exactly when `|z| > 2*threshold` (else
`warning`) with `score = min(1, |z|/(2*threshold))`.  With `mean = 100`,
`stdDev = 10`, `threshold = 2.5`: value `126` (`z = 2.6`) yields severity
`warning` and value `151` (`z = 5.1`) yields severity `critical`. -/
theorem zscore_detect_characterization (th : ℚ) (hth : 0 < th)
    (m : MetricSample) (getB : String → Option StratBaseline) :
    (getB m.name = none → ZScoreStrategy.detect th m getB = none)
    ∧ (∀ b, getB m.name = some b → b.stdDev = 0 →
        ZScoreStrategy.detect th m getB = none)
    ∧ (∀ b, getB m.name = some b → b.stdDev ≠ 0 →
        ((|(m.value - b.mean) / b.stdDev| ≤ th →
            ZScoreStrategy.detect th m getB = none)
         ∧ (th < |(m.value - b.mean) / b.stdDev| →
            ZScoreStrategy.detect th m getB = some
              { vtype := "spike"
                severity :=
                  if th * 2 < |(m.value - b.mean) / b.stdDev| then "critical"
                  else "warning"
                score := Min.min 1 (|(m.value - b.mean) / b.stdDev| / (th * 2)) })))
    ∧ ZScoreStrategy.detect (5 / 2) { name := "lat", value := 126 } baseLat100 =
        some { vtype := "spike", severity := "warning", score := 13 / 25 }
    ∧ ZScoreStrategy.detect (5 / 2) { name := "lat", value := 151 } baseLat100 =
        some { vtype := "spike", severity := "critical", score := 1 } := by
  refine ⟨?_, ?_, ?_, ?_, ?_⟩
  · intro h; simp [ZScoreStrategy.detect, h]
  · intro b hb hsd; simp [ZScoreStrategy.detect, hb, hsd]
  · intro b hb hsd
    constructor
    · intro hle
      simp [ZScoreStrategy.detect, hb, hsd, hle]
    · intro hgt
      rw [ZScoreStrategy.detect, hb]
      simp only [if_neg hsd, if_neg (not_le.mpr hgt)]
  · norm_num [ZScoreStrategy.detect, baseLat100, abs]
  · norm_num [ZScoreStrategy.detect, baseLat100, abs]

/-- Witness for C2 at the specification's boundary scenario. -/
theorem zscore_detect_boundary_witness :
    ZScoreStrategy.detect (5 / 2) { name := "lat", value := 126 } baseLat100 =
        some { vtype := "spike", severity := "warning", score := 13 / 25 }
    ∧ ZScoreStrategy.detect (5 / 2) { name := "lat", value := 151 } baseLat100 =
        some { vtype := "spike", severity := "critical", score := 1 } :=
  ⟨(zscore_detect_characterization (5 / 2) (by norm_num)
      { name := "lat", value := 126 } baseLat100).2.2.2.1,
   (zscore_detect_characterization (5 / 2) (by norm_num)
      { name := "lat", value := 151 } baseLat100).2.2.2.2⟩

/-! ### C3: EMA seeding, update and the warning/critical boundary -/

/-- C3: on a call with a ready baseline and nonzero `stdDev`, the first
time a metric name is seen `EMAStrategy.detect` seeds the EMA to the
baseline mean and stores `newEma = alpha*value + (1-alpha)*mean`; with a
previous EMA it stores `newEma = alpha*value + (1-alpha)*prevEma`; when
`|value - newEma| / stdDev` is exactly `2*deviationThreshold` the verdict
severity is `warning` (the critical boundary is strict `>`).  With
`alpha = 0.5`, baseline `mean = 100`, `stdDev = 10`,
`deviationThreshold = 2.5`: value `100` on the empty state produces no
verdict and EMA `100`; value `200` next produces `newEma = 150`,
normalized deviation `5`, severity `warning`. -/
theorem ema_seed_update_and_boundary (alpha t : ℚ) (ht : 0 < t)
    (st : EmaState) (m : MetricSample)
    (getB : String → Option StratBaseline) (b : StratBaseline)
    (hb : getB m.name = some b) (hsd : b.stdDev ≠ 0) :
    (alookup st m.name = none →
        (EMAStrategy.detect alpha t st m getB).2 =
          aset st m.name (alpha * m.value + (1 - alpha) * b.mean))
    ∧ (∀ prev, alookup st m.name = some prev →
        (EMAStrategy.detect alpha t st m getB).2 =
          aset st m.name (alpha * m.value + (1 - alpha) * prev))
    ∧ (|m.value - (alpha * m.value +
          (1 - alpha) * ((alookup st m.name).getD b.mean))| / b.stdDev = t * 2 →
        (EMAStrategy.detect alpha t st m getB).1 =
          some { vtype := "drift", severity := "warning", score := 1 })
    ∧ EMAStrategy.detect (1 / 2) (5 / 2) [] { name := "lat", value := 100 }
        baseLat100 = (none, [("lat", 100)])
    ∧ EMAStrategy.detect (1 / 2) (5 / 2) [("lat", 100)]
        { name := "lat", value := 200 } baseLat100 =
        (some { vtype := "drift", severity := "warning", score := 1 },
         [("lat", 150)]) := by
  refine ⟨?_, ?_, ?_, ?_, ?_⟩
  · intro hnone
    rw [EMAStrategy.detect, hb]
    simp only [if_neg hsd, hnone, Option.getD_none]
    split <;> rfl
  · intro prev hprev
    rw [EMAStrategy.detect, hb]
    simp only [if_neg hsd, hprev, Option.getD_some]
    split <;> rfl
  · intro hdev
    rw [EMAStrategy.detect, hb]
    simp only [if_neg hsd, hdev]
    have h1 : ¬(t * 2 ≤ t) := by linarith
    have h2 : ¬(t * 2 > t * 2) := lt_irrefl _
    have h3 : t * 2 ≠ 0 := by positivity
    simp [h1, h2, div_self h3]
  · norm_num [EMAStrategy.detect, baseLat100, alookup, aset, abs]
  · norm_num [EMAStrategy.detect, baseLat100, alookup, aset, abs]

/-- Witness for C3 at the specification's EMA scenario. -/
theorem ema_boundary_witness :
    EMAStrategy.detect (1 / 2) (5 / 2) [] { name := "lat", value := 100 }
        baseLat100 = (none, [("lat", 100)])
    ∧ EMAStrategy.detect (1 / 2) (5 / 2) [("lat", 100)]
        { name := "lat", value := 200 } baseLat100 =
        (some { vtype := "drift", severity := "warning", score := 1 },
         [("lat", 150)]) :=
  ⟨(ema_seed_update_and_boundary (1 / 2) (5 / 2) (by norm_num) []
      { name := "lat", value := 100 } baseLat100
      { mean := 100, stdDev := 10 } (by norm_num [baseLat100])
      (by norm_num)).2.2.2.1,
   (ema_seed_update_and_boundary (1 / 2) (5 / 2) (by norm_num) []
      { name := "lat", value := 100 } baseLat100
      { mean := 100, stdDev := 10 } (by norm_num [baseLat100])
      (by norm_num)).2.2.2.2⟩

/-! ### C9: EMA state is untouched on guard returns -/

/-- C9: whenever `EMAStrategy.detect` returns `null` because the baseline
is unavailable (not ready) or its `stdDev` is `0`, the per-metric EMA map
is returned completely unchanged; the map is only read or written past
those guards. -/
theorem ema_state_frame_on_guard (alpha t : ℚ) (st : EmaState)
    (m : MetricSample) (getB : String → Option StratBaseline) :
    (getB m.name = none → EMAStrategy.detect alpha t st m getB = (none, st))
    ∧ (∀ b, getB m.name = some b → b.stdDev = 0 →
        EMAStrategy.detect alpha t st m getB = (none, st)) := by
  constructor
  · intro h; simp [EMAStrategy.detect, h]
  · intro b hb hsd; simp [EMAStrategy.detect, hb, hsd]

/-- Witness for C9: a missing baseline and a flat (`stdDev = 0`) baseline
both leave a nonempty EMA state untouched. -/
theorem ema_state_frame_witness :
    EMAStrategy.detect (3 / 10) (5 / 2) [("x", 42)]
        { name := "lat", value := 5 } (fun _ => none) = (none, [("x", 42)])
    ∧ EMAStrategy.detect (3 / 10) (5 / 2) [("x", 42)]
        { name := "lat", value := 5 }
        (fun _ => some { mean := 7, stdDev := 0 }) = (none, [("x", 42)]) :=
  ⟨(ema_state_frame_on_guard (3 / 10) (5 / 2) [("x", 42)]
      { name := "lat", value := 5 } (fun _ => none)).1 rfl,
   (ema_state_frame_on_guard (3 / 10) (5 / 2) [("x", 42)]
      { name := "lat", value := 5 }
      (fun _ => some { mean := 7, stdDev := 0 })).2
      { mean := 7, stdDev := 0 } rfl rfl⟩

/-! ### C8: event-bus dispatch order and per-listener error isolation -/

theorem traceEnv_foldl (throws : ℕ → Bool) (e : BusEnvelope ℕ)
    (ls : List ℕ) (w : List (ℕ × Bool)) :
    ls.foldl (fun acc id => (traceEnv throws id e acc).1) w =
      w ++ ls.map (fun id => (id, throws id)) := by
  induction ls generalizing w with
  | nil => simp
  | cons hd tl ih =>
    rw [List.foldl_cons, ih]
    simp [traceEnv]

/-- C8: `emit` invokes every listener currently registered for the type,
synchronously and in subscription order (the instrumented trace world
records exactly one entry per registered listener, in registration
order), and a listener that throws is caught: it neither stops delivery
to subsequent listeners nor propagates to the caller of `emit` (the
trace below is produced whatever the `throws` flags say, and `emit`
always returns normally).  In particular with listeners `1` then `2`
subscribed in that order, listener `1` runs to completion (its trace
entry is appended) before listener `2` begins. -/
theorem eventBus_emit_order_and_isolation (bus : EventBus ℕ)
    (etype source : String) (ts wt : ℚ) (payload : ℕ)
    (throws : ℕ → Bool) (w : List (ℕ × Bool)) :
    (bus.emit etype source ts wt payload (traceEnv throws) w).2 =
      w ++ ((alookup bus.listeners etype).getD []).map
        (fun id => (id, throws id))
    ∧ ((((EventBus.init ℕ).on "T" 1).on "T" 2).emit "T" source ts wt payload
        (traceEnv throws) []).2 = [(1, throws 1), (2, throws 2)] := by
  constructor
  · simp only [EventBus.emit]
    exact traceEnv_foldl throws _ _ w
  · simp only [EventBus.emit, EventBus.init, EventBus.on]
    rw [traceEnv_foldl]
    norm_num [alookup, aset]

/-! ### C7: failed restore is not always a complete no-op -/

/-- Counterexample to C7 as stated: this `restore` call fails (the try
block throws, the error is swallowed), yet the in-memory state is not
left unchanged — the record for `a` has been replaced (its count went
from 1 to 7) before the failing entry was reached. -/
theorem restore_failure_not_noop_counterexample :
    restoreFails restoreCexPayload = true
    ∧ restoreCexManager.restore restoreCexPayload ≠ restoreCexManager := by
  refine ⟨rfl, fun h => ?_⟩
  have hc := congrArg
    (fun mm => (alookup mm.baselines "a").map (·.count)) h
  simp [restoreCexManager, restoreCexPayload, BaselineManager.restore,
    applyRestoreEntries, restoredData, BaselineManager.record, freshData,
    updateData, mkBaselineManager, alookup, aset] at hc

/-- C7 amended: `restore` never lets an exception escape (it is a total
function of the parse outcome); when `JSON.parse` itself fails, or the
parsed root is `null` (so `Object.entries` throws), the state is left
completely unchanged; but when a parsed entry list contains a `null`
entry value, exactly the entries before the first `null` are applied
before the error is caught — partial application is possible. -/
theorem restore_failure_semantics (m : BaselineManager)
    (es : List (String × RestoreEntry)) :
    BaselineManager.restore m RestorePayload.parseError = m
    ∧ BaselineManager.restore m RestorePayload.nullRoot = m
    ∧ BaselineManager.restore m (RestorePayload.entriesRoot es) =
        applyRestoreEntries m
          (es.takeWhile fun e =>
            match e.2 with
            | RestoreEntry.nullEntry => false
            | RestoreEntry.savedEntry _ => true) := by
  refine ⟨rfl, rfl, ?_⟩
  show applyRestoreEntries m es = _
  induction es generalizing m with
  | nil => rfl
  | cons hd tl ih =>
    match hd with
    | (name, RestoreEntry.savedEntry s) =>
      simpa [applyRestoreEntries, List.takeWhile] using
        ih { m with baselines := aset m.baselines name (restoredData s) }
    | (name, RestoreEntry.nullEntry) =>
      simp [applyRestoreEntries, List.takeWhile]

/-! ### C5: readiness gating -/

theorem countOf_record_self (m : BaselineManager) (name : String) (v : ℚ) :
    countOf (m.record name v) name = countOf m name + 1 := by
  cases h : alookup m.baselines name <;>
    simp [countOf, alookup_record_self, h, updateData, freshData]

theorem countOf_recordSeq_same (name : String) (vs : List ℚ) :
    ∀ m : BaselineManager,
      countOf (m.recordSeq (vs.map fun v => (name, v))) name =
        countOf m name + vs.length := by
  induction vs with
  | nil => intro m; simp [BaselineManager.recordSeq]
  | cons hd tl ih =>
    intro m
    show countOf ((m.record name hd).recordSeq (tl.map fun v => (name, v)))
        name = _
    rw [ih (m.record name hd), countOf_record_self]
    simp only [List.length_cons]
    omega

theorem getBaseline_isSome_iff (m : BaselineManager) (name : String) :
    ((m.getBaseline name).isSome = true) ↔
      ∃ d, alookup m.baselines name = some d ∧ m.minSamples ≤ (d.count : ℚ) := by
  rw [BaselineManager.getBaseline]
  cases h : alookup m.baselines name with
  | none => simp
  | some d =>
    dsimp only
    constructor
    · intro hsome
      split at hsome
      · rename_i hge
        exact ⟨d, rfl, ge_iff_le.mp hge⟩
      · simp at hsome
    · rintro ⟨d2, hd2, hle⟩
      obtain rfl : d = d2 := by injection hd2
      rw [if_pos (ge_iff_le.mpr hle)]
      rfl

/-- C5: with `learningPeriodSeconds = 30` and `sampleRateHz = 1`,
`getBaseline` returns `null` after each of the first 29 `record` calls
for a metric and a non-null snapshot from the 30th call onward; in
general `isReady` holds exactly when `count ≥ minSamples`, and
`minSamples = learningPeriodSeconds * sampleRateHz = 30`. -/
theorem readiness_gating (vs : List ℚ) :
    (((BaselineManager.recordSeq (mkBaselineManager 30 1)
        (vs.map fun v => ("lat", v))).getBaseline "lat").isSome = true ↔
      30 ≤ vs.length)
    ∧ (∀ (m : BaselineManager) (name : String),
        m.isReady name = true ↔ m.minSamples ≤ (countOf m name : ℚ))
    ∧ (mkBaselineManager 30 1).minSamples = 30 := by
  refine ⟨?_, ?_, by norm_num [mkBaselineManager]⟩
  · have hmin : (BaselineManager.recordSeq (mkBaselineManager 30 1)
        (vs.map fun v => ("lat", v))).minSamples = 30 := by
      rw [minSamples_recordSeq]; norm_num [mkBaselineManager]
    have hcnt : countOf (BaselineManager.recordSeq (mkBaselineManager 30 1)
        (vs.map fun v => ("lat", v))) "lat" = vs.length := by
      rw [countOf_recordSeq_same]
      simp [countOf, mkBaselineManager, alookup]
    rw [getBaseline_isSome_iff, hmin]
    constructor
    · rintro ⟨d, hd, hle⟩
      rw [countOf, hd] at hcnt
      simp only [Option.elim_some] at hcnt
      rw [hcnt] at hle
      exact_mod_cast hle
    · intro h30
      cases hl : alookup (BaselineManager.recordSeq (mkBaselineManager 30 1)
          (vs.map fun v => ("lat", v))).baselines "lat" with
      | none =>
        rw [countOf, hl] at hcnt
        simp only [Option.elim_none] at hcnt
        omega
      | some d =>
        refine ⟨d, rfl, ?_⟩
        rw [countOf, hl] at hcnt
        simp only [Option.elim_some] at hcnt
        rw [hcnt]
        exact_mod_cast h30
  · intro m name
    rw [BaselineManager.isReady, countOf]
    simp [ge_iff_le]

/-- Witness for C5: 29 records leave `getBaseline` null, 30 make it
non-null. -/
theorem readiness_gating_witness :
    (((BaselineManager.recordSeq (mkBaselineManager 30 1)
        ((List.replicate 29 (7 : ℚ)).map fun v => ("lat", v))).getBaseline
          "lat").isSome = false)
    ∧ (((BaselineManager.recordSeq (mkBaselineManager 30 1)
        ((List.replicate 30 (7 : ℚ)).map fun v => ("lat", v))).getBaseline
          "lat").isSome = true) := by
  constructor
  · have h := (readiness_gating (List.replicate 29 (7 : ℚ))).1
    simp only [List.length_replicate] at h
    have : ¬(30 ≤ 29) := by omega
    simp [this] at h
    simp [h]
  · exact (readiness_gating (List.replicate 30 (7 : ℚ))).1.mpr
      (by simp)

/-! ### C6: serialize/restore round trip -/

theorem minSamples_applyRestoreEntries (es : List (String × RestoreEntry)) :
    ∀ m : BaselineManager, (applyRestoreEntries m es).minSamples =
      m.minSamples := by
  induction es with
  | nil => intro m; rfl
  | cons hd tl ih =>
    intro m
    match hd with
    | (name, RestoreEntry.savedEntry s) => exact ih _
    | (name, RestoreEntry.nullEntry) => rfl

theorem alookup_applyRestoreEntries_saved
    (es : List (String × SavedBaseline)) :
    ∀ (m : BaselineManager) (name : String), (es.map Prod.fst).Nodup →
      alookup (applyRestoreEntries m
          (es.map fun p => (p.1, RestoreEntry.savedEntry p.2))).baselines
        name =
        match alookup es name with
        | some s => some (restoredData s)
        | none => alookup m.baselines name := by
  induction es with
  | nil => intro m name _; simp [applyRestoreEntries, alookup]
  | cons hd tl ih =>
    intro m name hnd
    rw [List.map_cons, List.nodup_cons] at hnd
    obtain ⟨hk, htl⟩ := hnd
    show alookup (applyRestoreEntries
        { m with baselines := aset m.baselines hd.1 (restoredData hd.2) }
        (tl.map fun p => (p.1, RestoreEntry.savedEntry p.2))).baselines name = _
    rw [ih _ name htl]
    by_cases he : hd.1 = name
    · subst he
      have hnone : alookup tl hd.1 = none :=
        alookup_eq_none_of_not_mem_keys tl hd.1 hk
      rw [hnone]
      simp [alookup, alookup_aset_self]
    · cases ht : alookup tl name with
      | some s => simp [alookup, he, ht]
      | none => simp [alookup, he, ht, alookup_aset_ne _ _ _ _ he]

theorem alookup_serialize (m : BaselineManager) (name : String) :
    alookup m.serialize name = (alookup m.baselines name).map savedOf := by
  rw [BaselineManager.serialize, alookup_map]

theorem serialize_keys (m : BaselineManager) :
    m.serialize.map Prod.fst = akeys m.baselines := by
  simp [BaselineManager.serialize, akeys]

/-- C6: serializing a manager and restoring the blob into a fresh manager
reproduces, for every previously-ready metric, a snapshot with identical
`mean`, `stdDev`, `variance`, `sampleCount`, `min` and `max`, while the
restored ring-buffer window is empty, so all restored percentile fields
are the empty-window fallback `0` until new samples arrive. -/
theorem serialize_restore_roundtrip (m : BaselineManager)
    (hnd : (akeys m.baselines).Nodup) (name : String)
    (snap : BaselineSnapshot) (h : m.getBaseline name = some snap) :
    ((roundTrip m).getBaseline name).isSome = true
    ∧ ((roundTrip m).getBaseline name).map (·.mean) = some snap.mean
    ∧ ((roundTrip m).getBaseline name).map (·.variance) = some snap.variance
    ∧ ((roundTrip m).getBaseline name).map (·.stdDev) = some snap.stdDev
    ∧ ((roundTrip m).getBaseline name).map (·.sampleCount) =
        some snap.sampleCount
    ∧ ((roundTrip m).getBaseline name).map (·.min) = some snap.min
    ∧ ((roundTrip m).getBaseline name).map (·.max) = some snap.max
    ∧ (roundTrip m).getValues name = []
    ∧ ((roundTrip m).getBaseline name).map (·.p50) = some 0
    ∧ ((roundTrip m).getBaseline name).map (·.p90) = some 0
    ∧ ((roundTrip m).getBaseline name).map (·.p95) = some 0
    ∧ ((roundTrip m).getBaseline name).map (·.p99) = some 0 := by
  rw [BaselineManager.getBaseline] at h
  cases hl : alookup m.baselines name with
  | none => rw [hl] at h; exact absurd h (by simp)
  | some d =>
    rw [hl] at h
    dsimp only at h
    by_cases hready : ((d.count : ℚ) ≥ m.minSamples)
    case neg => rw [if_neg hready] at h; exact absurd h (by simp)
    rw [if_pos hready] at h
    have hrt : alookup (roundTrip m).baselines name =
        some (restoredData (savedOf d)) := by
      show alookup (applyRestoreEntries _ _).baselines name = _
      rw [alookup_applyRestoreEntries_saved m.serialize _ name
          (by rw [serialize_keys]; exact hnd),
        alookup_serialize, hl]
      rfl
    have hms : (roundTrip m).minSamples = m.minSamples := by
      show (applyRestoreEntries _ _).minSamples = _
      rw [minSamples_applyRestoreEntries]
    have hsnap : (roundTrip m).getBaseline name =
        some
          { mean := d.mean
            variance := if 1 < d.count then d.m2 / ((d.count : ℚ) - 1) else 0
            min := d.min
            max := d.max
            p50 := 0, p90 := 0, p95 := 0, p99 := 0
            sampleCount := d.count } := by
      rw [BaselineManager.getBaseline, hrt]
      dsimp only [restoredData, savedOf]
      rw [hms, if_pos hready]
      rfl
    obtain rfl : _ = snap := Option.some_injective _ h
    refine ⟨by simp [hsnap], ?_, ?_, ?_, ?_, ?_, ?_, ?_, ?_, ?_, ?_, ?_⟩ <;>
      simp [hsnap, BaselineManager.getValues, hrt, restoredData,
        RingBuffer.toArray, RingBuffer.empty, BaselineSnapshot.stdDev]

/-- Witness for C6: a one-sample manager round-trips its aggregate
statistics while the restored window is empty and percentiles reset
to `0`. -/
theorem serialize_restore_roundtrip_witness :
    ((roundTrip ((mkBaselineManager 1 1).record "a" 4)).getBaseline
        "a").map (·.mean) = some 4
    ∧ ((roundTrip ((mkBaselineManager 1 1).record "a" 4)).getBaseline
        "a").map (·.sampleCount) = some 1
    ∧ (roundTrip ((mkBaselineManager 1 1).record "a" 4)).getValues "a" = []
    ∧ ((roundTrip ((mkBaselineManager 1 1).record "a" 4)).getBaseline
        "a").map (·.p50) = some 0 := by
  have h : ((mkBaselineManager 1 1).record "a" 4).getBaseline "a" =
      some { mean := 4, variance := 0, min := some 4, max := some 4
             p50 := 4, p90 := 4, p95 := 4, p99 := 4, sampleCount := 1 } := by
    norm_num [BaselineManager.record, BaselineManager.getBaseline,
      mkBaselineManager, alookup, aset, updateData, freshData,
      RingBuffer.empty, RingBuffer.push, RingBuffer.toArray, sortAsc,
      insertAsc, Function.update, List.range_succ]
  have hnd : (akeys ((mkBaselineManager 1 1).record "a" 4).baselines).Nodup := by
    simp [BaselineManager.record, mkBaselineManager, aset, akeys]
  have hc := serialize_restore_roundtrip ((mkBaselineManager 1 1).record "a" 4)
    hnd "a" _ h
  exact ⟨hc.2.1, hc.2.2.2.2.1, hc.2.2.2.2.2.2.2.1, hc.2.2.2.2.2.2.2.2.1⟩

/-! ### C10: nonnegativity and monotonicity of the m2 accumulator -/

theorem m2_inv_record (m : BaselineManager)
    (hm : ∀ (n : String) (d : BaselineData),
      alookup m.baselines n = some d → 0 ≤ d.m2)
    (name : String) (v : ℚ) :
    ∀ (n : String) (d : BaselineData),
      alookup (m.record name v).baselines n = some d → 0 ≤ d.m2 := by
  intro n d hd
  by_cases he : name = n
  · subst he
    rw [alookup_record_self] at hd
    obtain rfl : _ = d := Option.some_injective _ hd
    have h0 : 0 ≤ ((alookup m.baselines name).getD freshData).m2 := by
      cases hl : alookup m.baselines name with
      | none => simp [freshData]
      | some d0 => simpa using hm name d0 hl
    exact h0.trans (m2_le_updateData _ v)
  · rw [alookup_record_ne m name n v he] at hd
    exact hm n d hd

theorem m2_inv_recordSeq (ops : List (String × ℚ)) :
    ∀ m : BaselineManager,
      (∀ (n : String) (d : BaselineData),
        alookup m.baselines n = some d → 0 ≤ d.m2) →
      ∀ (n : String) (d : BaselineData),
        alookup (m.recordSeq ops).baselines n = some d → 0 ≤ d.m2 := by
  induction ops with
  | nil => intro m hm; exact hm
  | cons hd tl ih =>
    intro m hm
    exact ih (m.record hd.1 hd.2) (m2_inv_record m hm hd.1 hd.2)

/-- C10: in every per-metric record reachable by `record` calls from a
fresh manager, the sum-of-squared-deviations accumulator `m2` is
nonnegative, and it never decreases under a further `record` call;
consequently every snapshot returned by `getBaseline` has
`variance ≥ 0` and its `stdDev = sqrt(variance)` is a well-defined
nonnegative real (the radicand is never negative, so no `NaN` arises). -/
theorem m2_nonneg_invariant (lp hz : ℚ) (ops : List (String × ℚ))
    (name other : String) (v : ℚ) :
    0 ≤ m2Of ((mkBaselineManager lp hz).recordSeq ops) name
    ∧ m2Of ((mkBaselineManager lp hz).recordSeq ops) name ≤
        m2Of (((mkBaselineManager lp hz).recordSeq ops).record other v) name
    ∧ (∀ snap, ((mkBaselineManager lp hz).recordSeq ops).getBaseline name =
        some snap →
        0 ≤ snap.variance ∧ snap.stdDev ^ 2 = (snap.variance : ℝ)
        ∧ 0 ≤ snap.stdDev) := by
  have hreach : ∀ (n : String) (d : BaselineData),
      alookup ((mkBaselineManager lp hz).recordSeq ops).baselines n =
        some d → 0 ≤ d.m2 := by
    apply m2_inv_recordSeq
    intro n d hd
    simp [mkBaselineManager, alookup] at hd
  have h1 : 0 ≤ m2Of ((mkBaselineManager lp hz).recordSeq ops) name := by
    rw [m2Of]
    cases hl : alookup ((mkBaselineManager lp hz).recordSeq ops).baselines
        name with
    | none => simp
    | some d => simpa using hreach name d hl
  refine ⟨h1, ?_, ?_⟩
  · by_cases he : other = name
    · subst he
      rw [m2Of, m2Of, alookup_record_self]
      cases hl : alookup ((mkBaselineManager lp hz).recordSeq ops).baselines
          other with
      | none => simpa [hl, freshData] using m2_le_updateData freshData v
      | some d =>
        rw [m2Of, hl] at h1
        simpa [hl] using m2_le_updateData d v
    · rw [m2Of, m2Of, alookup_record_ne _ other name v he]
  · intro snap hsnap
    rw [BaselineManager.getBaseline] at hsnap
    cases hl : alookup ((mkBaselineManager lp hz).recordSeq ops).baselines
        name with
    | none => rw [hl] at hsnap; exact absurd hsnap (by simp)
    | some d =>
      rw [hl] at hsnap
      dsimp only at hsnap
      by_cases hready : ((d.count : ℚ) ≥
          ((mkBaselineManager lp hz).recordSeq ops).minSamples)
      case neg => rw [if_neg hready] at hsnap; exact absurd hsnap (by simp)
      rw [if_pos hready] at hsnap
      obtain rfl : _ = snap := Option.some_injective _ hsnap
      have hvar : (0 : ℚ) ≤
          if 1 < d.count then d.m2 / ((d.count : ℚ) - 1) else 0 := by
        split
        · rename_i hc
          have hd2 : (0 : ℚ) ≤ d.m2 := hreach name d hl
          have hden : (0 : ℚ) < (d.count : ℚ) - 1 := by
            have : (1 : ℚ) < (d.count : ℚ) := by exact_mod_cast hc
            linarith
          positivity
        · exact le_refl 0
      refine ⟨hvar, ?_, Real.sqrt_nonneg _⟩
      rw [BaselineSnapshot.stdDev]
      exact Real.sq_sqrt (by exact_mod_cast hvar)

/-- Witness for C10 at a concrete two-sample run: its reachable `m2` is
nonnegative and its concrete snapshot has nonnegative variance and a
well-defined nonnegative standard deviation. -/
theorem m2_nonneg_invariant_witness :
    0 ≤ m2Of ((mkBaselineManager 1 1).recordSeq [("a", 1), ("a", 2)]) "a"
    ∧ (0 ≤ (BaselineSnapshot.mk (3 / 2) (1 / 2) (some 1) (some 2)
          2 2 2 2 2).variance
       ∧ (BaselineSnapshot.mk (3 / 2) (1 / 2) (some 1) (some 2)
          2 2 2 2 2).stdDev ^ 2 =
          ((BaselineSnapshot.mk (3 / 2) (1 / 2) (some 1) (some 2)
            2 2 2 2 2).variance : ℝ)
       ∧ 0 ≤ (BaselineSnapshot.mk (3 / 2) (1 / 2) (some 1) (some 2)
          2 2 2 2 2).stdDev) :=
  ⟨(m2_nonneg_invariant 1 1 [("a", 1), ("a", 2)] "a" "a" 3).1,
   (m2_nonneg_invariant 1 1 [("a", 1), ("a", 2)] "a" "a" 3).2.2
     (BaselineSnapshot.mk (3 / 2) (1 / 2) (some 1) (some 2) 2 2 2 2 2)
     (by norm_num [BaselineManager.recordSeq, BaselineManager.record,
        BaselineManager.getBaseline, mkBaselineManager, alookup, aset,
        updateData, freshData, RingBuffer.empty, RingBuffer.push,
        RingBuffer.toArray, sortAsc, insertAsc, Function.update,
        List.range_succ])⟩

/-! ### C4: ring-buffer window correctness -/

theorem add_mod_ne_self (C head d : ℕ) (hC : head < C) (hd1 : 0 < d)
    (hd2 : d < C) : (head + d) % C ≠ head := by
  intro h
  rcases Nat.lt_or_ge (head + d) C with hlt | hge
  · rw [Nat.mod_eq_of_lt hlt] at h
    omega
  · rw [Nat.mod_eq_sub_mod hge, Nat.mod_eq_of_lt (by omega)] at h
    omega

theorem rbinv_empty {α : Type} [Inhabited α] (C : ℕ) (hC : 0 < C) :
    RBInv (RingBuffer.empty C : RingBuffer α) [] := by
  refine ⟨hC, rfl, by simp, hC, fun _ => rfl, ?_⟩
  intro i hi
  simp at hi

theorem rbinv_push {α : Type} [Inhabited α] {b : RingBuffer α} {w : List α}
    (h : RBInv b w) (x : α) :
    RBInv (b.push x) (windowStep b.capacity w x) := by
  obtain ⟨hpos, hcnt, hlen, hhead, hheadeq, hbuf⟩ := h
  by_cases hlt : w.length < b.capacity
  · -- not yet full: the window grows by one
    have hh : b.head = w.length := hheadeq hlt
    have hw : windowStep b.capacity w x = w ++ [x] := if_pos hlt
    rw [hw]
    have hstart : (if (w ++ [x]).length < (b.push x).capacity then 0
        else (b.push x).head) = 0 := by
      by_cases hlt2 : w.length + 1 < b.capacity
      · simp [RingBuffer.push, List.length_append, hlt2]
      · have he : w.length + 1 = b.capacity := by omega
        simp [RingBuffer.push, List.length_append, hh, he, Nat.mod_self]
    refine ⟨hpos, ?_, ?_, ?_, ?_, ?_⟩
    · simp [RingBuffer.push, hcnt, hlt]
    · simp only [RingBuffer.push]
      simp only [List.length_append, List.length_singleton]
      omega
    · exact Nat.mod_lt _ hpos
    · intro hlt2
      simp only [RingBuffer.push, List.length_append,
        List.length_singleton] at hlt2 ⊢
      rw [hh, Nat.mod_eq_of_lt (by omega)]
    · intro i hi
      rw [show (if (w ++ [x]).length < (b.push x).capacity then 0
          else (b.push x).head) = 0 from hstart]
      simp only [List.length_append, List.length_singleton] at hi
      have hcap : (b.push x).capacity = b.capacity := rfl
      rw [hcap, Nat.zero_add, Nat.mod_eq_of_lt (by omega)]
      rcases Nat.lt_or_ge i w.length with hiw | hiw
      · rw [List.get?_append hiw]
        have := hbuf i hiw
        rw [if_pos hlt, Nat.zero_add, Nat.mod_eq_of_lt (by omega)] at this
        rw [this]
        have hne : i ≠ b.head := by omega
        simp [RingBuffer.push, Function.update, hne]
      · have hieq : i = w.length := by omega
        subst hieq
        rw [List.get?_concat_length]
        simp [RingBuffer.push, Function.update, hh]
  · -- full: the window slides
    have hfull : w.length = b.capacity := by omega
    have hw : windowStep b.capacity w x = w.drop 1 ++ [x] := if_neg hlt
    rw [hw]
    have hlen2 : (w.drop 1 ++ [x]).length = b.capacity := by
      simp only [List.length_append, List.length_drop,
        List.length_singleton]
      omega
    have hcap : (b.push x).capacity = b.capacity := rfl
    have hstart : (if (w.drop 1 ++ [x]).length < (b.push x).capacity then 0
        else (b.push x).head) = (b.head + 1) % b.capacity := by
      rw [hlen2, hcap, if_neg (lt_irrefl _)]
      rfl
    refine ⟨hpos, ?_, ?_, ?_, ?_, ?_⟩
    · show (if b.count < b.capacity then b.count + 1 else b.count) = _
      rw [if_neg (by omega), hcnt, hfull, hlen2]
    · rw [hlen2, hcap]
    · exact Nat.mod_lt _ hpos
    · intro hlt2
      rw [hlen2, hcap] at hlt2
      omega
    · intro i hi
      rw [hstart]
      have hcap : (b.push x).capacity = b.capacity := rfl
      rw [hcap, Nat.mod_add_mod]
      rw [hlen2] at hi
      have hdrop : (w.drop 1).length = b.capacity - 1 := by
        simp only [List.length_drop]
        omega
      rcases Nat.lt_or_ge i (b.capacity - 1) with hi2 | hi2
      · -- an element surviving from the old window
        rw [show b.head + 1 + i = b.head + (1 + i) from by omega]
        have hne : (b.head + (1 + i)) % b.capacity ≠ b.head :=
          add_mod_ne_self b.capacity b.head (1 + i) hhead (by omega)
            (by omega)
        have hbval : (b.push x).buffer ((b.head + (1 + i)) % b.capacity) =
            b.buffer ((b.head + (1 + i)) % b.capacity) := by
          simp [RingBuffer.push, Function.update, hne]
        rw [hbval, List.get?_append (by omega), List.get?_drop]
        have := hbuf (1 + i) (by omega)
        rw [if_neg hlt] at this
        exact this
      · -- the freshly pushed element
        have hieq : i = b.capacity - 1 := by omega
        subst hieq
        rw [show b.head + 1 + (b.capacity - 1) = b.head + b.capacity from
          by omega, Nat.add_mod_right, Nat.mod_eq_of_lt hhead]
        rw [show b.capacity - 1 = (w.drop 1).length from hdrop.symm,
          List.get?_concat_length]
        simp [RingBuffer.push, Function.update]

theorem toArray_eq_of_rbinv {α : Type} [Inhabited α] {b : RingBuffer α}
    {w : List α} (h : RBInv b w) : b.toArray = w := by
  obtain ⟨hpos, hcnt, hlen, hhead, hheadeq, hbuf⟩ := h
  rw [RingBuffer.toArray]
  by_cases h0 : b.count = 0
  · rw [if_pos h0]
    have hw0 : w.length = 0 := by omega
    exact (List.eq_nil_of_length_eq_zero hw0).symm
  · rw [if_neg h0]
    dsimp only
    apply List.ext_get
    · simp [hcnt]
    · intro n h1 h2
      simp only [List.get_map, List.get_range]
      have hn : n < w.length := by
        simp only [List.length_map, List.length_range] at h1
        omega
      have hb := hbuf n hn
      rw [List.get?_eq_get hn] at hb
      have heq := Option.some_injective _ hb
      have hidx : ((if b.count < b.capacity then 0 else b.head) + n) %
          b.capacity = ((if w.length < b.capacity then 0 else b.head) + n) %
          b.capacity := by rw [hcnt]
      rw [hidx]
      exact heq.symm

theorem rbinv_pushList {α : Type} [Inhabited α] (xs : List α) :
    ∀ (b : RingBuffer α) (w : List α), RBInv b w →
      RBInv (b.pushList xs) (xs.foldl (windowStep b.capacity) w) := by
  induction xs with
  | nil => intro b w h; exact h
  | cons hd tl ih =>
    intro b w h
    exact ih (b.push hd) (windowStep b.capacity w hd) (rbinv_push h hd)

theorem windowsList_eq_drop {α : Type} (C : ℕ) (hC : 0 < C) (xs : List α) :
    windowsList C xs = xs.drop (xs.length - C) := by
  induction xs using List.reverseRecOn with
  | nil => simp [windowsList]
  | append_singleton ys y ih =>
    rw [windowsList, List.foldl_append,
      show List.foldl (windowStep C) [] ys = windowsList C ys from rfl, ih]
    simp only [List.foldl_cons, List.foldl_nil]
    by_cases hc : ys.length < C
    · have h1 : ys.length - C = 0 := by omega
      have h2 : (ys ++ [y]).length - C = 0 := by
        simp only [List.length_append, List.length_singleton]
        omega
      rw [h1, List.drop_zero, h2, List.drop_zero, windowStep, if_pos hc]
    · have h1 : (ys.drop (ys.length - C)).length = C := by
        simp only [List.length_drop]
        omega
      rw [windowStep, if_neg (by rw [h1]; exact lt_irrefl C), List.drop_drop]
      have h2 : ys.length - C + 1 = ys.length + 1 - C := by omega
      have h3 : (ys ++ [y]).length - C = ys.length + 1 - C := by
        simp only [List.length_append, List.length_singleton]
      rw [h2, h3, List.drop_append_of_le_length (by omega)]

theorem capacity_pushList {α : Type} [Inhabited α] (xs : List α) :
    ∀ b : RingBuffer α, (b.pushList xs).capacity = b.capacity := by
  induction xs with
  | nil => intro b; rfl
  | cons hd tl ih => intro b; exact ih (b.push hd)

theorem count_pushList_zero {α : Type} [Inhabited α] (xs : List α) :
    ∀ b : RingBuffer α, b.capacity = 0 → b.count = 0 →
      (b.pushList xs).count = 0 := by
  induction xs with
  | nil => intro b _ h0; exact h0
  | cons hd tl ih =>
    intro b hcap h0
    refine ih (b.push hd) hcap ?_
    show (if b.count < b.capacity then b.count + 1 else b.count) = 0
    rw [hcap, h0]
    rfl

/-- C4: pushing `C + k` items (`k ≥ 0`) into a fresh capacity-`C` ring
buffer makes `toArray()` return exactly the last `C` pushed items in
arrival order (oldest to newest), and after any sequence of pushes the
`length` never exceeds the capacity. -/
theorem ringBuffer_last_capacity_window (α : Type) [Inhabited α] (C k : ℕ)
    (xs : List α) (hlen : xs.length = C + k) :
    (RingBuffer.pushList (RingBuffer.empty C) xs).toArray = xs.drop k
    ∧ ∀ ys : List α,
        (RingBuffer.pushList (RingBuffer.empty C) ys).length ≤ C := by
  by_cases hC : 0 < C
  · constructor
    · have hinv := rbinv_pushList xs (RingBuffer.empty C) []
        (rbinv_empty C hC)
      rw [toArray_eq_of_rbinv hinv,
        show xs.foldl (windowStep (RingBuffer.empty C : RingBuffer α).capacity)
          [] = windowsList C xs from rfl,
        windowsList_eq_drop C hC xs, hlen]
      congr 1
      omega
    · intro ys
      have hinv := rbinv_pushList ys (RingBuffer.empty C) []
        (rbinv_empty C hC)
      have h1 := hinv.hcnt
      have h2 := hinv.hlen
      have h3 := capacity_pushList ys (RingBuffer.empty C : RingBuffer α)
      rw [RingBuffer.length]
      have h4 : (RingBuffer.empty C : RingBuffer α).capacity = C := rfl
      omega
  · have hC0 : C = 0 := by omega
    subst hC0
    constructor
    · have hcnt := count_pushList_zero xs (RingBuffer.empty 0) rfl rfl
      rw [RingBuffer.toArray, if_pos hcnt]
      have hk : k = xs.length := by omega
      rw [hk, List.drop_length]
    · intro ys
      have hcnt := count_pushList_zero ys (RingBuffer.empty 0) rfl rfl
      rw [RingBuffer.length, hcnt]

/-- Witness for C4 with capacity 2 and 3 pushes. -/
theorem ringBuffer_window_witness :
    ([1, 2, 3] : List ℕ).length = 2 + 1
    ∧ (RingBuffer.pushList (RingBuffer.empty 2)
        ([1, 2, 3] : List ℕ)).toArray = [2, 3] :=
  ⟨rfl, (ringBuffer_last_capacity_window ℕ 2 1 [1, 2, 3] rfl).1⟩

end PerfSDK
